import Mathlib

/-!
Shallow embedding of the DocIntel single-page application (repository
`LLM_DOC`) for checking its natural-language specification.

The embedded code comes from three source files:
  * `src/contexts/DocumentContext.tsx` (the full variant with validation,
    stats, retry and cleanup): document store.
  * `src/App.tsx` (the `QueryContext` variant): mock query engine
    (`simulateQueryProcessing`).
  * `src/contexts/AuthContext.tsx`: demo credential table and `login`.

Modelling conventions:
  * Machine numbers (`file.size`, confidence, amounts) are `Nat`; none of
    the embedded computations can overflow or go negative in the source.
  * ISO-8601 timestamp strings (`uploadedAt`, `processedAt`) are embedded
    as their epoch-millisecond value `new Date(s).getTime() : Nat`; the
    source only ever compares these values, never inspects the text.
  * Effects: React `setDocuments` state updates become pure functions
    `List Document → List Document`; toast notifications are dropped;
    wall-clock reads (`Date.now()`, `new Date()`), random ids, checksums
    and base64 payloads are explicit parameters; a scheduled
    `processDocument` continuation is reported as a `Bool` component.
  * JavaScript string operations (`toLowerCase`, `includes`, template
    literals, `split`) are embedded over `List Char` (ASCII inputs).
-/

namespace DocIntel

/-! ## JavaScript string primitives -/

/-- Model of `String.prototype.toLowerCase` (ASCII range). -/
def toLowerStr (s : String) : String :=
  String.mk (s.data.map Char.toLower)

/-- `startsW p s` : does `s` start with the pattern `p`? -/
def startsW : List Char → List Char → Bool
  | [], _ => true
  | _ :: _, [] => false
  | a :: p, b :: s => a == b && startsW p s

/-- `containsLC p s` : model of `s.includes(p)` on character lists. -/
def containsLC (p : List Char) : List Char → Bool
  | [] => startsW p []
  | b :: s => startsW p (b :: s) || containsLC p (b :: s).tail

/-- Model of `String.prototype.includes`: `containsSub s p` is `s.includes(p)`. -/
def containsSub (s p : String) : Bool :=
  containsLC p.data s.data

/-- Fuel-driven digit accumulator (structurally recursive so that it
evaluates inside the kernel): prepends the decimal digits of `n` to `ds`. -/
def natDigitsCore : Nat → Nat → List Char → List Char
  | 0, _, ds => ds
  | fuel + 1, n, ds =>
      if n / 10 = 0 then Nat.digitChar (n % 10) :: ds
      else natDigitsCore fuel (n / 10) (Nat.digitChar (n % 10) :: ds)

/-- Decimal digit characters of a natural number, most significant first.
Model of the number-to-string conversion performed by JavaScript template
literals (always plain decimal for the integer byte counts involved). -/
def natDigits (n : Nat) : List Char :=
  natDigitsCore (n + 1) n []

/-- Recursive companion of `natDigits` used for reasoning. -/
def natDigitsRec (n : Nat) : List Char :=
  if n < 10 then [Nat.digitChar n]
  else natDigitsRec (n / 10) ++ [Nat.digitChar (n % 10)]
decreasing_by exact Nat.div_lt_self (by omega) (by omega)

/-- Base-10 value of a digit string (left fold); inverse of `natDigits`,
used to prove that decimal rendering is injective. -/
def ofDigits (l : List Char) : Nat :=
  l.foldl (fun a c => 10 * a + (c.toNat - 48)) 0

/-- Decimal rendering of a natural number (model of `${n}` in a template
literal). -/
def natToString (n : Nat) : String :=
  String.mk (natDigits n)

/-! ## Document store: data model (`DocumentContext.tsx`) -/

/-- `status: 'processing' | 'processed' | 'error'`. -/
inductive Status where
  | processing : Status
  | processed : Status
  | error : Status
deriving DecidableEq

/-- The `Document` record interface of `DocumentContext.tsx`. -/
structure Document where
  id : String
  name : String
  /-- the `type` field (lowercased file extension). -/
  type' : String
  size : Nat
  uploadedAt : Nat
  status : Status
  category : Option String := none
  tags : List String := []
  starred : Bool := false
  version : Nat := 1
  url : Option String := none
  processedAt : Option Nat := none
  errorMessage : Option String := none
  processingProgress : Option Nat := none
  fileData : Option String := none
  checksum : Option String := none
deriving DecidableEq

/-- A browser `File` object as consumed by the store: name, byte size and
declared MIME type (`file.type`). -/
structure File where
  name : String
  size : Nat
  type' : String
deriving DecidableEq

/-- Result type of `validateFile`. -/
structure ValidationResult where
  isValid : Bool
  error : Option String := none
deriving DecidableEq

/-- The `FILE_VALIDATION` configuration object. -/
structure FileValidationConfig where
  maxSize : Nat
  allowedTypes : List String
  allowedExtensions : List String

def FILE_VALIDATION : FileValidationConfig :=
  { maxSize := 10 * 1024 * 1024
  , allowedTypes :=
      [ ("application/pdf")
      , ("application/msword")
      , ("application/vnd.openxmlformats-officedocument.wordprocessingml.document")
      , ("text/plain")
      , ("image/jpeg")
      , ("image/png")
      , ("image/gif") ]
  , allowedExtensions :=
      [("pdf"), ("doc"), ("docx"), ("txt"), ("jpg"), ("jpeg"), ("png"), ("gif")] }

/-- The `sampleDocuments` seed collection (timestamps are the epoch
milliseconds of the ISO strings in the source: `2024-01-15T10:30:00Z`,
`2024-01-14T15:20:00Z`, `2024-01-13T09:15:00Z`). -/
def sampleDocuments : List Document :=
  [ { id := ("1"), name := ("Health Insurance Policy v2.1.pdf"), type' := ("pdf")
    , size := 2456789, uploadedAt := 1705314600000, status := Status.processed
    , category := some ("policy"), tags := [("insurance"), ("health"), ("policy")]
    , starred := true, version := 2, processedAt := some 1705314735000
    , checksum := some ("sha256-abc123def456") }
  , { id := ("2"), name := ("Dental Coverage Guidelines.docx"), type' := ("docx")
    , size := 1234567, uploadedAt := 1705245600000, status := Status.processed
    , category := some ("policy"), tags := [("dental"), ("coverage"), ("guidelines")]
    , starred := false, version := 1, processedAt := some 1705245750000
    , checksum := some ("sha256-def456ghi789") }
  , { id := ("3"), name := ("Pre-existing Conditions List.pdf"), type' := ("pdf")
    , size := 987654, uploadedAt := 1705137300000, status := Status.processed
    , category := some ("medical"), tags := [("medical"), ("conditions"), ("exclusions")]
    , starred := false, version := 1, processedAt := some 1705137465000
    , checksum := some ("sha256-ghi789jkl012") } ]

/-! ## Document store: statistics -/

/-- Entry update for the `categoryCounts` / `typeCounts` objects:
`stats.xCounts[k] = (stats.xCounts[k] || 0) + 1`, keys in first-insertion
order as for a JavaScript object. -/
def bumpCount (m : List (String × Nat)) (k : String) : List (String × Nat) :=
  match m with
  | [] => [(k, 1)]
  | (k', n) :: rest => if k' == k then (k', n + 1) :: rest else (k', n) :: bumpCount rest k

/-- The `DocumentStats` interface. -/
structure DocumentStats where
  totalFiles : Nat
  totalSize : Nat
  processingFiles : Nat
  processedFiles : Nat
  errorFiles : Nat
  starredFiles : Nat
  categoryCounts : List (String × Nat)
  typeCounts : List (String × Nat)
deriving DecidableEq

/-- `calculateStats` of `DocumentContext.tsx`. -/
def calculateStats (docs : List Document) : DocumentStats :=
  { totalFiles := docs.length
  , totalSize := docs.foldl (fun acc doc => acc + doc.size) 0
  , processingFiles := (docs.filter (fun doc => doc.status == Status.processing)).length
  , processedFiles := (docs.filter (fun doc => doc.status == Status.processed)).length
  , errorFiles := (docs.filter (fun doc => doc.status == Status.error)).length
  , starredFiles := (docs.filter (fun doc => doc.starred)).length
  , categoryCounts :=
      docs.foldl
        (fun m doc => match doc.category with
          | some c => bumpCount m c
          | none => m) []
  , typeCounts := docs.foldl (fun m doc => bumpCount m doc.type') [] }

/-! ## Document store: validation and upload -/

/-- `file.name.split('.').pop()?.toLowerCase()`; the result is the empty
string exactly when JavaScript would have obtained a falsy value. -/
def fileExtension (name : String) : String :=
  toLowerStr (((name.split (fun c => c == '.')).getLast?).getD (""))

/-- `validateFile` of `DocumentContext.tsx`: size ceiling, MIME allow-list,
extension allow-list, duplicate-name check, in that order. -/
def validateFile (documents : List Document) (file : File) : ValidationResult :=
  if file.size > FILE_VALIDATION.maxSize then
    { isValid := false
    , error := some (("File size exceeds maximum limit of ")
        ++ natToString (FILE_VALIDATION.maxSize / (1024 * 1024)) ++ ("MB")) }
  else if !(FILE_VALIDATION.allowedTypes.contains file.type') then
    { isValid := false
    , error := some (("File type \x27") ++ file.type' ++ ("\x27 is not supported")) }
  else if fileExtension file.name == ("") ||
      !(FILE_VALIDATION.allowedExtensions.contains (fileExtension file.name)) then
    { isValid := false
    , error := some (("File extension \x27.") ++ fileExtension file.name
        ++ ("\x27 is not supported")) }
  else if (documents.find? (fun doc => doc.name == file.name)).isSome then
    { isValid := false
    , error := some (("A file with the name \x27") ++ file.name
        ++ ("\x27 already exists")) }
  else
    { isValid := true }

/-- The synchronous collection effect of `uploadDocument`: on validation
failure the error is surfaced and the collection is untouched; on success
the new `processing` record is prepended.  `newId` models
`Date.now().toString() + Math.random().toString(36).substr(2, 9)`, `now`
the upload timestamp, `checksum` and `fileData` the values computed from
the file bytes by `generateChecksum` / `fileToBase64`. -/
def uploadDocument (documents : List Document) (file : File)
    (newId : String) (now : Nat) (checksum fileData : String) : List Document :=
  if (validateFile documents file).isValid then
    { id := newId
    , name := file.name
    , type' := fileExtension file.name
    , size := file.size
    , uploadedAt := now
    , status := Status.processing
    , category := some ("policy")
    , tags := []
    , starred := false
    , version := 1
    , fileData := some fileData
    , checksum := some checksum } :: documents
  else
    documents

/-- The success path of `processDocument`: the scheduled continuation flips
the record to `processed` and stamps `processedAt`. -/
def processDocumentSuccess (documents : List Document) (docId : String)
    (processedAt : Nat) : List Document :=
  documents.map (fun doc =>
    if doc.id == docId then
      { doc with status := Status.processed, processedAt := some processedAt }
    else doc)

/-- The failure path of `processDocument`: the record is flipped to `error`
with the fixed message. -/
def processDocumentFailure (documents : List Document) (docId : String) :
    List Document :=
  documents.map (fun doc =>
    if doc.id == docId then
      { doc with
          status := Status.error,
          errorMessage := some ("Processing failed - file may be corrupted") }
    else doc)

/-! ## Document store: delete, update, retry -/

/-- `deleteDocument`: the `Bool` is `true` when a record was found and
removed, `false` on the `Document not found` error path (which returns
normally, it does not throw). -/
def deleteDocument (documents : List Document) (id : String) :
    List Document × Bool :=
  match documents.find? (fun doc => doc.id == id) with
  | none => (documents, false)
  | some _ => (documents.filter (fun doc => !(doc.id == id)), true)

/-- `bulkDeleteDocuments`. -/
def bulkDeleteDocuments (documents : List Document) (ids : List String) :
    List Document :=
  if (documents.filter (fun doc => ids.contains doc.id)).length == 0 then
    documents
  else
    documents.filter (fun doc => !(ids.contains doc.id))

/-- `updateDocument`: `{ ...doc, ...updates }` merges the supplied partial
fields into the matching record; the merge is modelled as an arbitrary
record transformer `updates`. -/
def updateDocument (documents : List Document) (id : String)
    (updates : Document → Document) : List Document :=
  documents.map (fun doc => if doc.id == id then updates doc else doc)

/-- `retryProcessing`: the `Bool` component records whether the
asynchronous `processDocument` completion was scheduled (`await
processDocument(id)`).  On the `Document not found` path nothing happens;
otherwise the record is reset to `processing` with `errorMessage`
cleared — the source never inspects `document.status`. -/
def retryProcessing (documents : List Document) (id : String) :
    List Document × Bool :=
  match documents.find? (fun doc => doc.id == id) with
  | none => (documents, false)
  | some _ =>
      (documents.map (fun doc =>
        if doc.id == id then
          { doc with status := Status.processing, errorMessage := none }
        else doc), true)

/-! ## Document store: cleanup (`cleanupRedundantData`) -/

/-- `` `${doc.name}-${doc.size}` ``: the duplicate-detection key. -/
def dupKey (doc : Document) : String :=
  doc.name ++ ("-") ++ natToString doc.size

/-- Append `d` to the entry of `k` in an insertion-ordered association
list, creating the entry at the end if absent (JavaScript `Map`
semantics of `duplicates.get(key)!.push(doc)`). -/
def addToGroups (gs : List (String × List Document)) (k : String)
    (d : Document) : List (String × List Document) :=
  match gs with
  | [] => [(k, [d])]
  | (k', ds) :: rest =>
      if k' == k then (k', ds ++ [d]) :: rest else (k', ds) :: addToGroups rest k d

/-- The `duplicates : Map<string, Document[]>` built by the first loop of
`cleanupRedundantData`. -/
def groupByKey (docs : List Document) : List (String × List Document) :=
  docs.foldl (fun gs d => addToGroups gs (dupKey d) d) []

/-- Insert into a list sorted by strictly descending-or-equal `uploadedAt`,
placing the new element after existing elements with the same timestamp. -/
def insertByDate (d : Document) : List Document → List Document
  | [] => [d]
  | x :: xs =>
      if x.uploadedAt < d.uploadedAt then d :: x :: xs else x :: insertByDate d xs

/-- Stable sort by descending `uploadedAt`: the embedding of
`docs.sort((a, b) => new Date(b.uploadedAt).getTime() - new
Date(a.uploadedAt).getTime())` (JavaScript `Array.prototype.sort` is
stable, and a stable sort for a total comparator is unique, so insertion
sort produces the same list). -/
def sortByDateDesc (ds : List Document) : List Document :=
  ds.foldl (fun acc d => insertByDate d acc) []

/-- The `toRemove` documents collected over all duplicate groups
(`docs.slice(1)` of each sorted group with more than one member), in map
iteration order. -/
def dupRemovals (gs : List (String × List Document)) : List Document :=
  (gs.map (fun g => if 1 < g.2.length then (sortByDateDesc g.2).drop 1 else [])).flatten

/-- `updatedDocuments.splice(index, 1)` at `findIndex(d => d.id === doc.id)`:
remove the first record with the given id (no-op when absent). -/
def removeFirstById (docs : List Document) (id : String) : List Document :=
  match docs with
  | [] => []
  | d :: rest => if d.id == id then rest else d :: removeFirstById rest id

/-- The duplicate-elimination pass of `cleanupRedundantData`: every
`toRemove` document is spliced out of the working copy by id. -/
def dupPass (docs : List Document) : List Document :=
  (dupRemovals (groupByKey docs)).foldl (fun acc d => removeFirstById acc d.id) docs

/-- `doc.status === 'error' && new Date(doc.uploadedAt) < sevenDaysAgo`;
`cutoff` is the epoch-millisecond value of `sevenDaysAgo`. -/
def errStale (cutoff : Nat) (doc : Document) : Bool :=
  doc.status == Status.error && doc.uploadedAt < cutoff

/-- The stale-error pass of `cleanupRedundantData`: `errorDocsToRemove` is
filtered from the working copy, then each is spliced out by id. -/
def errorPass (cutoff : Nat) (docs : List Document) : List Document :=
  (docs.filter (errStale cutoff)).foldl (fun acc d => removeFirstById acc d.id) docs

/-- `cleanupRedundantData`: duplicate pass, then stale-error pass; `cutoff`
is the `sevenDaysAgo` timestamp computed from the wall clock. -/
def cleanupRedundantData (cutoff : Nat) (docs : List Document) : List Document :=
  errorPass cutoff (dupPass docs)

/-! ## Reachable store states -/

/-- Collections reachable from the seed `sampleDocuments` by any sequence
of store operations (uploads, scheduled completions, deletes, bulk
deletes, updates, retries, cleanups). -/
inductive Reachable : List Document → Prop where
  | init : Reachable sampleDocuments
  | upload (docs file newId now checksum fileData) : Reachable docs →
      Reachable (uploadDocument docs file newId now checksum fileData)
  | processSuccess (docs docId t) : Reachable docs →
      Reachable (processDocumentSuccess docs docId t)
  | processFailure (docs docId) : Reachable docs →
      Reachable (processDocumentFailure docs docId)
  | del (docs id) : Reachable docs → Reachable (deleteDocument docs id).1
  | bulkDel (docs ids) : Reachable docs → Reachable (bulkDeleteDocuments docs ids)
  | update (docs id updates) : Reachable docs →
      Reachable (updateDocument docs id updates)
  | retry (docs id) : Reachable docs → Reachable (retryProcessing docs id).1
  | cleanup (docs cutoff) : Reachable docs →
      Reachable (cleanupRedundantData cutoff docs)

/-! ## Mock query engine (`App.tsx`, `QueryContext` variant) -/

/-- `\d` of the JavaScript regexes. -/
def isDigitChar (c : Char) : Bool :=
  48 ≤ c.toNat && c.toNat ≤ 57

/-- `\s` of the JavaScript regexes (ASCII whitespace). -/
def isSpaceChar (c : Char) : Bool :=
  c == ' ' || c == '\t' || c == '\n' || c == '\r' || c == '\x0b' || c == '\x0c'

/-- Case-insensitive prefix test (the `/i` flag). -/
def startsWCI : List Char → List Char → Bool
  | [], _ => true
  | _ :: _, [] => false
  | a :: p, b :: s => (a.toLower == b.toLower) && startsWCI p s

/-- Does one of the alternatives of the group match here (tried in source
order, as a JavaScript alternation does)? -/
def altsMatch (alts : List (List Char)) (s : List Char) : Bool :=
  alts.any (fun a => startsWCI a s)

/-- Match `(\d+)[-\s]?(alt₁|alt₂|…)` anchored at the start of `s`,
returning capture group 1.  `\d+` is greedy and never needs to give
digits back (every alternative starts with a letter), and the optional
`[-\s]?` is tried greedily first, then without consuming — exactly the
backtracking order of the JavaScript engine. -/
def matchNumAltsAt (alts : List (List Char)) (s : List Char) : Option (List Char) :=
  let digits := s.takeWhile isDigitChar
  if digits.length == 0 then none
  else
    match s.drop digits.length with
    | [] => if altsMatch alts [] then some digits else none
    | c :: rest =>
        if c == '-' || isSpaceChar c then
          if altsMatch alts rest then some digits
          else if altsMatch alts (c :: rest) then some digits
          else none
        else if altsMatch alts (c :: rest) then some digits else none

/-- Leftmost match: `String.prototype.match` tries every start index in
order. -/
def firstNumAltsMatch (alts : List (List Char)) : List Char → Option (List Char)
  | [] => none
  | c :: s =>
      match matchNumAltsAt alts (c :: s) with
      | some d => some d
      | none => firstNumAltsMatch alts s

/-- `query.match(/(\d+)[-\s]?(year|y|yr)/i)`, capture group 1. -/
def ageMatch (query : String) : Option (List Char) :=
  firstNumAltsMatch [("year").data, ("y").data, ("yr").data] query.data

/-- `query.match(/(\d+)[-\s]?month/i)`, capture group 1. -/
def policyMatch (query : String) : Option (List Char) :=
  firstNumAltsMatch [("month").data] query.data

/-- Age extraction: `` `${ageMatch[1]} years` ``. -/
def agePart (query : String) : List (String × String) :=
  match ageMatch query with
  | some d => [(("Age"), String.mk d ++ (" years"))]
  | none => []

/-- Gender extraction (plain substring checks, `male` branch first). -/
def genderPart (lowerQuery : String) : List (String × String) :=
  if containsSub lowerQuery ("male") || containsSub lowerQuery ("m,") ||
      containsSub lowerQuery ("m ") then
    [(("Gender"), ("Male"))]
  else if containsSub lowerQuery ("female") || containsSub lowerQuery ("f,") ||
      containsSub lowerQuery ("f ") then
    [(("Gender"), ("Female"))]
  else []

/-- Procedure extraction. -/
def procedurePart (lowerQuery : String) : List (String × String) :=
  if containsSub lowerQuery ("knee surgery") then [(("Procedure"), ("Knee Surgery"))]
  else if containsSub lowerQuery ("dental") then [(("Procedure"), ("Dental Treatment"))]
  else if containsSub lowerQuery ("heart surgery") then [(("Procedure"), ("Heart Surgery"))]
  else if containsSub lowerQuery ("emergency") then [(("Procedure"), ("Emergency Care"))]
  else []

/-- Location extraction. -/
def locationPart (lowerQuery : String) : List (String × String) :=
  if containsSub lowerQuery ("pune") then [(("Location"), ("Pune, India"))]
  else if containsSub lowerQuery ("mumbai") then [(("Location"), ("Mumbai, India"))]
  else []

/-- Policy-duration extraction: `` `${policyMatch[1]} months` ``. -/
def policyPart (query : String) : List (String × String) :=
  match policyMatch query with
  | some d => [(("Policy Age"), String.mk d ++ (" months"))]
  | none => []

/-- The `extractedInfo` array built by the extraction phase of
`simulateQueryProcessing`, in push order. -/
def extractedInfo (query : String) : List (String × String) :=
  agePart query ++ genderPart (toLowerStr query) ++ procedurePart (toLowerStr query)
    ++ locationPart (toLowerStr query) ++ policyPart query

/-- `decision: 'approved' | 'rejected' | 'pending'`. -/
inductive Decision where
  | approved : Decision
  | rejected : Decision
  | pending : Decision
deriving DecidableEq

/-- The decision phase of `simulateQueryProcessing`: fixed priority chain;
the final fallback branch uses `Math.random()`, modelled by the
parameters `randConf` (confidence draw, `Math.floor(r*20)+75`) and
`randAmt` (amount draw, `Math.floor(r*10000)+1000`).  Returns
`(decision, amount, confidence)`. -/
def decisionPhase (lowerQuery : String) (randConf randAmt : Nat) :
    Decision × String × Nat :=
  if containsSub lowerQuery ("pre-existing") || containsSub lowerQuery ("heart surgery") then
    (Decision.rejected, ("$0"), 96)
  else if containsSub lowerQuery ("knee surgery") then
    (Decision.approved, ("$12,500"), 94)
  else if containsSub lowerQuery ("dental") then
    (Decision.approved, ("$2,800"), 89)
  else if containsSub lowerQuery ("emergency") then
    (Decision.approved, ("$8,750"), 92)
  else
    (Decision.approved, ("$") ++ natToString (randAmt % 10000 + 1000), randConf % 20 + 75)

/-- One entry of the canned `justification` array. -/
structure Justification where
  text : String
  source : String
  confidence : Nat
deriving DecidableEq

/-- The `QueryResult` interface. -/
structure QueryResult where
  id : String
  query : String
  decision : Decision
  amount : String
  confidence : Nat
  processingTime : String
  timestamp : String
  extractedInfo : List (String × String)
  justification : List Justification
deriving DecidableEq

/-- `simulateQueryProcessing`: extraction, decision, canned justification.
`idv`, `processingTime` and `timestamp` model the wall-clock reads
(`Date.now().toString()`, the random display duration, `toISOString()`). -/
def simulateQueryProcessing (query : String) (randConf randAmt : Nat)
    (idv processingTime timestamp : String) : QueryResult :=
  let dca := decisionPhase (toLowerStr query) randConf randAmt
  { id := idv
  , query := query
  , decision := dca.1
  , amount := dca.2.1
  , confidence := dca.2.2
  , processingTime := processingTime
  , timestamp := timestamp
  , extractedInfo := extractedInfo query
  , justification :=
      [ { text :=
            if dca.1 == Decision.approved then
              ("Patient meets eligibility criteria for the requested procedure under the current policy terms.")
            else
              ("Pre-existing conditions are excluded from coverage under Section 4.2 of the policy agreement.")
        , source := ("Policy Document v2.1 - Section 4.2")
        , confidence := dca.2.2 }
      , { text :=
            if dca.1 == Decision.approved then
              ("Geographic coverage includes the specified treatment location and approved medical facilities.")
            else
              ("Waiting period requirements not met for high-risk procedures.")
        , source := ("Coverage Guidelines - Geographic Restrictions")
        , confidence := dca.2.2 - 5 } ] }

/-- The first test-scenario input of the specification. -/
def kneeQuery : String :=
  "46-year-old male, knee surgery in Pune, 3-month-old insurance policy"

/-! ## Authentication (`AuthContext.tsx`) -/

/-- `role: 'admin' | 'analyst' | 'viewer'`. -/
inductive Role where
  | admin : Role
  | analyst : Role
  | viewer : Role
deriving DecidableEq

/-- The `User` interface. -/
structure User where
  id : String
  email : String
  name : String
  role : Role
  avatar : Option String := none
  lastLogin : Option String := none
deriving DecidableEq

/-- One value of the `demoUsers` record. -/
structure DemoEntry where
  password : String
  user : User
deriving DecidableEq

/-- The `demoUsers` credential table (keys in declaration order).  The
module-load `lastLogin` stamp is modelled as `none`: `login` always
overwrites it before returning. -/
def demoUsers : List (String × DemoEntry) :=
  [ ( ("admin@docintel.com")
    , { password := ("admin123")
      , user := { id := ("1"), email := ("admin@docintel.com")
                , name := ("John Doe"), role := Role.admin } } )
  , ( ("analyst@docintel.com")
    , { password := ("analyst123")
      , user := { id := ("2"), email := ("analyst@docintel.com")
                , name := ("Sarah Wilson"), role := Role.analyst } } )
  , ( ("viewer@docintel.com")
    , { password := ("viewer123")
      , user := { id := ("3"), email := ("viewer@docintel.com")
                , name := ("Mike Johnson"), role := Role.viewer } } ) ]

/-- `login`: `demoUsers[email.toLowerCase()]` then an exact password
comparison; `throw new Error('Invalid credentials')` becomes
`Except.error`.  `now` models `new Date().toISOString()`. -/
def login (email password now : String) : Except String User :=
  match demoUsers.find? (fun e => e.1 == toLowerStr email) with
  | none => Except.error ("Invalid credentials")
  | some e =>
      if e.2.password != password then Except.error ("Invalid credentials")
      else Except.ok { e.2.user with lastLogin := some now }

/-- `e` is an upper/lower-case variant of `t`: same characters up to ASCII
letter case. -/
abbrev caseVariant (s t : String) : Prop :=
  s.data.map Char.toLower = t.data.map Char.toLower

/-! ## Proof-support definitions -/

/-- Association lookup in the duplicate `Map` (proof support). -/
def getGroup (gs : List (String × List Document)) (k : String) : List Document :=
  match gs.find? (fun g => g.1 == k) with
  | none => []
  | some g => g.2

/-- Specification-side description of the duplicate pass, written from the
spec's words for comparison with the code's `dupPass`: a record is kept
iff it is most recently uploaded among the records sharing its
`(name,size)` key. -/
def specKeepsLatest (docs : List Document) (d : Document) : Bool :=
  docs.all (fun e => !(dupKey e == dupKey d) || decide (e.uploadedAt ≤ d.uploadedAt))

/-- Counterexample record: older duplicate, cleanly processed. -/
def cexDocOld : Document :=
  { id := ("a"), name := ("report.pdf"), type' := ("pdf"), size := 12
  , uploadedAt := 5, status := Status.processed }

/-- Counterexample record: most recent duplicate, but a stale `error`
record (uploaded before the retention cutoff). -/
def cexDocNew : Document :=
  { id := ("b"), name := ("report.pdf"), type' := ("pdf"), size := 12
  , uploadedAt := 9, status := Status.error
  , errorMessage := some ("Processing failed - file may be corrupted") }

end DocIntel

namespace DocIntel

/-! ## General lemmas -/

/-- Folding `acc + doc.size` computes the sum of the sizes. -/
theorem foldl_add_size (l : List Document) :
    ∀ a : Nat, l.foldl (fun acc doc => acc + doc.size) a = a + (l.map Document.size).sum := by
  induction l with
  | nil => simp
  | cons d t ih => intro a; simp [ih, Nat.add_assoc]

/-! ## Claim C1 -/

/-- Claim C1: a file whose size exceeds the 10 MiB ceiling is rejected by
`validateFile` with the size-limit error message, and `uploadDocument`
adds no record: the collection is returned unchanged. -/
theorem oversize_file_rejected_and_not_ingested
    (docs : List Document) (file : File) (newId : String) (now : Nat)
    (checksum fileData : String)
    (h : file.size > FILE_VALIDATION.maxSize) :
    (validateFile docs file).isValid = false ∧
    (validateFile docs file).error = some ("File size exceeds maximum limit of 10MB") ∧
    uploadDocument docs file newId now checksum fileData = docs := by
  have hv : validateFile docs file =
      { isValid := false
      , error := some ("File size exceeds maximum limit of 10MB") } := by
    unfold validateFile
    rw [if_pos h]
    decide
  refine ⟨by rw [hv], by rw [hv], ?_⟩
  unfold uploadDocument
  rw [hv]
  simp

/-- Witness for C1 at a concrete oversized file. -/
theorem oversize_file_rejected_and_not_ingested_witness :
    (validateFile sampleDocuments
      { name := ("big.pdf"), size := 10485761, type' := ("application/pdf") }).isValid = false ∧
    (validateFile sampleDocuments
      { name := ("big.pdf"), size := 10485761, type' := ("application/pdf") }).error =
        some ("File size exceeds maximum limit of 10MB") ∧
    uploadDocument sampleDocuments
      { name := ("big.pdf"), size := 10485761, type' := ("application/pdf") }
      ("id1") 7 ("ck") ("fd") = sampleDocuments :=
  oversize_file_rejected_and_not_ingested sampleDocuments
    { name := ("big.pdf"), size := 10485761, type' := ("application/pdf") }
    ("id1") 7 ("ck") ("fd") (by decide)

/-! ## Claim C2 -/

/-- Claim C2 counterexample: record `1` of the seed collection has status
`processed` (not `error`), yet `retryProcessing` on it is not a no-op: the
collection changes and the asynchronous completion is scheduled. -/
theorem retryProcessing_nonerror_not_noop_cex :
    (sampleDocuments.find? (fun d => d.id == ("1"))).map Document.status =
      some Status.processed ∧
    (retryProcessing sampleDocuments ("1")).1 ≠ sampleDocuments ∧
    (retryProcessing sampleDocuments ("1")).2 = true := by
  decide

/-- Claim C2 (amended): `retryProcessing` never inspects the record's
status.  On an unknown id it leaves the collection unchanged and schedules
nothing; on any found record — whatever its status — it schedules the
asynchronous completion and resets the record to `processing` with
`errorMessage` cleared, leaving every other field and every other record
unchanged. -/
theorem retryProcessing_resets_any_found_record (docs : List Document) (id : String) :
    (docs.find? (fun d => d.id == id) = none → retryProcessing docs id = (docs, false)) ∧
    ((docs.find? (fun d => d.id == id)).isSome →
      (retryProcessing docs id).2 = true ∧
      ∀ i : Nat, (retryProcessing docs id).1[i]? =
        (docs[i]?).map (fun d =>
          if d.id == id then { d with status := Status.processing, errorMessage := none }
          else d)) := by
  unfold retryProcessing
  cases hfind : docs.find? (fun d => d.id == id) with
  | none => simp
  | some d => simp [List.getElem?_map]

/-- Witness for C2's amended theorem at the seed collection. -/
theorem retryProcessing_resets_any_found_record_witness :
    (retryProcessing sampleDocuments ("1")).2 = true ∧
    (retryProcessing sampleDocuments ("1")).1[0]? =
      ((sampleDocuments[0]?).map (fun d =>
        if d.id == ("1") then { d with status := Status.processing, errorMessage := none }
        else d)) := by
  have h := (retryProcessing_resets_any_found_record sampleDocuments ("1")).2 (by decide)
  exact ⟨h.1, h.2 0⟩

/-! ## Claim C4 -/

/-- Claim C4: any query whose lowercased text contains `pre-existing` is
rejected with the fixed rejection-path constants: amount `$0` and
confidence `96`, regardless of the extraction results and of the random
draws. -/
theorem pre_existing_query_rejected (query : String) (randConf randAmt : Nat)
    (idv pt ts : String)
    (h : containsSub (toLowerStr query) ("pre-existing") = true) :
    (simulateQueryProcessing query randConf randAmt idv pt ts).decision = Decision.rejected ∧
    (simulateQueryProcessing query randConf randAmt idv pt ts).amount = ("$0") ∧
    (simulateQueryProcessing query randConf randAmt idv pt ts).confidence = 96 := by
  have hdp : decisionPhase (toLowerStr query) randConf randAmt =
      (Decision.rejected, ("$0"), 96) := by
    unfold decisionPhase
    rw [h]
    simp
  refine ⟨?_, ?_, ?_⟩ <;> simp [simulateQueryProcessing, hdp]

/-- Witness for C4 at a concrete query. -/
theorem pre_existing_query_rejected_witness :
    (simulateQueryProcessing ("Does it cover Pre-existing diabetes?") 3 7
      ("i") ("p") ("t")).decision = Decision.rejected ∧
    (simulateQueryProcessing ("Does it cover Pre-existing diabetes?") 3 7
      ("i") ("p") ("t")).amount = ("$0") ∧
    (simulateQueryProcessing ("Does it cover Pre-existing diabetes?") 3 7
      ("i") ("p") ("t")).confidence = 96 :=
  pre_existing_query_rejected ("Does it cover Pre-existing diabetes?") 3 7
    ("i") ("p") ("t") (by decide)

/-! ## Claim C5 -/

/-- Claim C5: on the knee-surgery scenario input, the extraction yields the
five expected `(type, value)` pairs and the decision phase returns
`approved` with the fixed knee-surgery constants `94` and `$12,500`,
whatever the random draws. -/
theorem knee_surgery_scenario (randConf randAmt : Nat) (idv pt ts : String) :
    (("Age"), ("46 years")) ∈
      (simulateQueryProcessing kneeQuery randConf randAmt idv pt ts).extractedInfo ∧
    (("Gender"), ("Male")) ∈
      (simulateQueryProcessing kneeQuery randConf randAmt idv pt ts).extractedInfo ∧
    (("Procedure"), ("Knee Surgery")) ∈
      (simulateQueryProcessing kneeQuery randConf randAmt idv pt ts).extractedInfo ∧
    (("Location"), ("Pune, India")) ∈
      (simulateQueryProcessing kneeQuery randConf randAmt idv pt ts).extractedInfo ∧
    (("Policy Age"), ("3 months")) ∈
      (simulateQueryProcessing kneeQuery randConf randAmt idv pt ts).extractedInfo ∧
    (simulateQueryProcessing kneeQuery randConf randAmt idv pt ts).decision =
      Decision.approved ∧
    (simulateQueryProcessing kneeQuery randConf randAmt idv pt ts).confidence = 94 ∧
    (simulateQueryProcessing kneeQuery randConf randAmt idv pt ts).amount = ("$12,500") := by
  refine ⟨?_, ?_, ?_, ?_, ?_, rfl, rfl, rfl⟩ <;>
    · show _ ∈ extractedInfo kneeQuery
      decide

/-! ## Claim C6 -/

/-- Claim C6: in every reachable store state, the derived statistics report
`totalSize` equal to the sum of the `size` fields and `totalFiles` equal
to the number of records. -/
theorem stats_totals_invariant (docs : List Document) (_h : Reachable docs) :
    (calculateStats docs).totalSize = (docs.map Document.size).sum ∧
    (calculateStats docs).totalFiles = docs.length := by
  refine ⟨?_, rfl⟩
  show docs.foldl (fun acc doc => acc + doc.size) 0 = (docs.map Document.size).sum
  rw [foldl_add_size]
  simp

/-- Witness for C6 at the initial state. -/
theorem stats_totals_invariant_witness :
    (calculateStats sampleDocuments).totalSize = (sampleDocuments.map Document.size).sum ∧
    (calculateStats sampleDocuments).totalFiles = sampleDocuments.length :=
  stats_totals_invariant sampleDocuments Reachable.init

/-! ## Claim C8 -/

/-- Claim C8: deleting an id that is not present leaves the collection
unchanged and signals `not found` (returning normally, not throwing); and
deleting the same id twice leaves the collection after the second call
equal to the collection after the first, the second call reporting `not
found`. -/
theorem delete_unknown_id_noop (docs : List Document) (id : String)
    (h : ∀ d ∈ docs, d.id ≠ id) :
    deleteDocument docs id = (docs, false) ∧
    ∀ (docs' : List Document) (id' : String),
      deleteDocument (deleteDocument docs' id').1 id' = ((deleteDocument docs' id').1, false) := by
  constructor
  · unfold deleteDocument
    rw [List.find?_eq_none.mpr]
    intro d hd
    simpa using h d hd
  · intro docs' id'
    unfold deleteDocument
    cases hfind : docs'.find? (fun doc => doc.id == id') with
    | none => simp [hfind]
    | some d =>
        simp only [hfind]
        rw [List.find?_eq_none.mpr]
        intro a ha
        have := List.of_mem_filter ha
        simpa using this

/-- Witness for C8: unknown id `99`, then double deletion of id `1`. -/
theorem delete_unknown_id_noop_witness :
    deleteDocument sampleDocuments ("99") = (sampleDocuments, false) ∧
    deleteDocument (deleteDocument sampleDocuments ("1")).1 ("1") =
      ((deleteDocument sampleDocuments ("1")).1, false) := by
  have h := delete_unknown_id_noop sampleDocuments ("99") (by decide)
  exact ⟨h.1, h.2 sampleDocuments ("1")⟩

/-! ## Substring lemmas (for claim C7) -/

/-- `startsW` decides the prefix relation. -/
theorem startsW_iff (p : List Char) :
    ∀ s, startsW p s = true ↔ ∃ r, s = p ++ r := by
  induction p with
  | nil => intro s; simp [startsW]
  | cons a p ih =>
    intro s
    cases s with
    | nil => simp [startsW]
    | cons b s' =>
      rw [show startsW (a :: p) (b :: s') = (a == b && startsW p s') from rfl]
      simp only [Bool.and_eq_true, beq_iff_eq, ih, List.cons_append, List.cons.injEq]
      constructor
      · rintro ⟨rfl, r, rfl⟩
        exact ⟨r, rfl, rfl⟩
      · rintro ⟨r, rfl, rfl⟩
        exact ⟨rfl, r, rfl⟩

/-- `containsLC` decides the substring relation. -/
theorem containsLC_iff (p : List Char) :
    ∀ s, containsLC p s = true ↔ ∃ l r, s = l ++ p ++ r := by
  intro s
  induction s with
  | nil =>
    rw [show containsLC p [] = startsW p [] from rfl, startsW_iff]
    constructor
    · rintro ⟨r, hr⟩
      exact ⟨[], r, by simpa using hr⟩
    · rintro ⟨l, r, hr⟩
      obtain ⟨hlp, hrr⟩ := List.append_eq_nil.mp hr.symm
      obtain ⟨hl, hp⟩ := List.append_eq_nil.mp hlp
      exact ⟨r, by simp [hp, hrr]⟩
  | cons b s' ih =>
    rw [show containsLC p (b :: s') = (startsW p (b :: s') || containsLC p s') from rfl]
    simp only [Bool.or_eq_true, startsW_iff, ih]
    constructor
    · rintro (⟨r, hr⟩ | ⟨l, r, hr⟩)
      · exact ⟨[], r, by simpa using hr⟩
      · exact ⟨b :: l, r, by simp [hr]⟩
    · rintro ⟨l, r, hr⟩
      cases l with
      | nil => exact Or.inl ⟨r, by simpa using hr⟩
      | cons x l' =>
        simp only [List.cons_append, List.cons.injEq] at hr
        exact Or.inr ⟨l', r, hr.2⟩

/-- A query containing `female` also contains `male` as a substring. -/
theorem containsSub_male_of_female (s : String)
    (h : containsSub s ("female") = true) : containsSub s ("male") = true := by
  unfold containsSub at h ⊢
  rw [containsLC_iff] at h ⊢
  obtain ⟨l, r, hr⟩ := h
  refine ⟨l ++ ("fe").data, r, ?_⟩
  rw [hr, show (("female") : String).data = ("fe").data ++ ("male").data from rfl]
  simp

/-- When the lowercased query contains `male`, the gender matcher takes the
first branch. -/
theorem genderPart_of_male (lq : String) (h : containsSub lq ("male") = true) :
    genderPart lq = [(("Gender"), ("Male"))] := by
  unfold genderPart
  rw [h]
  simp

/-- Every pair produced by the age matcher has type `Age`. -/
theorem agePart_fst (q : String) (x : String × String) (hx : x ∈ agePart q) :
    x.1 = ("Age") := by
  unfold agePart at hx
  cases h : ageMatch q <;> rw [h] at hx <;> simp at hx
  rw [hx]

/-- Every pair produced by the procedure matcher has type `Procedure`. -/
theorem procedurePart_fst (lq : String) (x : String × String)
    (hx : x ∈ procedurePart lq) : x.1 = ("Procedure") := by
  revert hx
  unfold procedurePart
  repeat' split
  all_goals intro hx
  all_goals simp_all

/-- Every pair produced by the location matcher has type `Location`. -/
theorem locationPart_fst (lq : String) (x : String × String)
    (hx : x ∈ locationPart lq) : x.1 = ("Location") := by
  revert hx
  unfold locationPart
  repeat' split
  all_goals intro hx
  all_goals simp_all

/-- Every pair produced by the policy matcher has type `Policy Age`. -/
theorem policyPart_fst (q : String) (x : String × String) (hx : x ∈ policyPart q) :
    x.1 = ("Policy Age") := by
  unfold policyPart at hx
  cases h : policyMatch q <;> rw [h] at hx <;> simp at hx
  rw [hx]

/-! ## Claim C7 -/

/-- Claim C7 counterexample: the query `female` contains the token
`female`, yet the extraction classifies it as `Male` (the `male` substring
check fires first) and never emits `(Gender, Female)`. -/
theorem female_query_classified_male_cex :
    containsSub (toLowerStr ("female")) ("female") = true ∧
    (simulateQueryProcessing ("female") 0 0 ("") ("") ("")).extractedInfo =
      [(("Gender"), ("Male"))] ∧
    (("Gender"), ("Female")) ∉
      (simulateQueryProcessing ("female") 0 0 ("") ("") ("")).extractedInfo := by
  decide

/-- Claim C7 (amended): the substring checks do not respect token
boundaries — `male` is a substring of `female`, and the `male` branch is
checked first, so every query whose lowercased text contains `female` gets
the pair `(Gender, Male)` and never `(Gender, Female)`. -/
theorem female_query_gender_male (query : String) (randConf randAmt : Nat)
    (idv pt ts : String)
    (h : containsSub (toLowerStr query) ("female") = true) :
    (("Gender"), ("Male")) ∈
      (simulateQueryProcessing query randConf randAmt idv pt ts).extractedInfo ∧
    (("Gender"), ("Female")) ∉
      (simulateQueryProcessing query randConf randAmt idv pt ts).extractedInfo := by
  have hg : genderPart (toLowerStr query) = [(("Gender"), ("Male"))] :=
    genderPart_of_male _ (containsSub_male_of_female _ h)
  have hres : (simulateQueryProcessing query randConf randAmt idv pt ts).extractedInfo =
      extractedInfo query := rfl
  rw [hres]
  unfold extractedInfo
  rw [hg]
  constructor
  · simp
  · intro hx
    simp only [List.mem_append] at hx
    rcases hx with ((((h1 | h2) | h3) | h4) | h5)
    · exact absurd (agePart_fst _ _ h1) (by decide)
    · simp at h2
    · exact absurd (procedurePart_fst _ _ h3) (by decide)
    · exact absurd (locationPart_fst _ _ h4) (by decide)
    · exact absurd (policyPart_fst _ _ h5) (by decide)

/-- Witness for C7's amended theorem at a concrete query. -/
theorem female_query_gender_male_witness :
    (("Gender"), ("Male")) ∈
      (simulateQueryProcessing ("30-year-old female, dental checkup") 2 5
        ("i") ("p") ("t")).extractedInfo ∧
    (("Gender"), ("Female")) ∉
      (simulateQueryProcessing ("30-year-old female, dental checkup") 2 5
        ("i") ("p") ("t")).extractedInfo :=
  female_query_gender_male ("30-year-old female, dental checkup") 2 5
    ("i") ("p") ("t") (by decide)

/-! ## Claim C9 -/

/-- Helper: a successful credential lookup with the exact stored password
logs the stored user in, stamping `lastLogin`. -/
theorem login_ok_of_found (e : String) (ent : String × DemoEntry) (now : String)
    (hfind : demoUsers.find? (fun u => u.1 == toLowerStr e) = some ent) :
    login e ent.2.password now = Except.ok { ent.2.user with lastLogin := some now } := by
  unfold login
  rw [hfind]
  simp

/-- Helper: a successful lookup with a wrong password is rejected. -/
theorem login_fail_of_found (k : String) (ent : String × DemoEntry) (pw now : String)
    (hfind : demoUsers.find? (fun u => u.1 == toLowerStr k) = some ent)
    (hne : (ent.2.password != pw) = true) :
    login k pw now = Except.error ("Invalid credentials") := by
  unfold login
  rw [hfind]
  simp [hne]

/-- Claim C9: for every registered credential pair, `login` succeeds for
any upper/lower-case variant of the registered email together with the
exact password (the lookup key is `email.toLowerCase()`), and fails with
`Invalid credentials` for the exact email with a case-variant of the
password that differs from it (the password comparison is exact). -/
theorem login_email_case_insensitive_password_case_sensitive
    (k : String) (entry : DemoEntry) (e pw now : String)
    (hk : (k, entry) ∈ demoUsers)
    (he : caseVariant e k)
    (_hpw : caseVariant pw entry.password) (hne : pw ≠ entry.password) :
    login e entry.password now = Except.ok { entry.user with lastLogin := some now } ∧
    login k pw now = Except.error ("Invalid credentials") := by
  have hne' : (entry.password != pw) = true := bne_iff_ne.mpr (fun hh => hne hh.symm)
  simp only [demoUsers, List.mem_cons, List.not_mem_nil, or_false] at hk
  rcases hk with hk | hk | hk <;>
    · simp only [Prod.mk.injEq] at hk
      obtain ⟨h1, h2⟩ := hk
      have hel : toLowerStr e = k := by
        unfold toLowerStr
        rw [he, h1]
        decide
      have hkk : toLowerStr k = k := by
        rw [h1]
        decide
      exact ⟨login_ok_of_found e (k, entry) now (by simp only [hel, h1, h2]; decide)
        , login_fail_of_found k (k, entry) pw now (by simp only [hkk, h1, h2]; decide) hne'⟩

/-- Witness for C9 at the admin credentials. -/
theorem login_case_sensitivity_witness :
    login ("ADMIN@Docintel.COM") ("admin123") ("t0") =
      Except.ok { id := ("1"), email := ("admin@docintel.com"), name := ("John Doe")
                , role := Role.admin, lastLogin := some ("t0") } ∧
    login ("admin@docintel.com") ("ADMIN123") ("t0") =
      Except.error ("Invalid credentials") :=
  login_email_case_insensitive_password_case_sensitive
    ("admin@docintel.com")
    { password := ("admin123")
    , user := { id := ("1"), email := ("admin@docintel.com")
              , name := ("John Doe"), role := Role.admin } }
    ("ADMIN@Docintel.COM") ("ADMIN123") ("t0")
    (by decide) (by decide) (by decide) (by decide)

/-! ## Cleanup machinery: splice-by-id lemmas -/

/-- With pairwise-distinct ids, splicing out the first record with a given
id is the same as filtering that id out. -/
theorem removeFirstById_eq_filter (docs : List Document) (i : String)
    (h : (docs.map Document.id).Nodup) :
    removeFirstById docs i = docs.filter (fun d => !(d.id == i)) := by
  induction docs with
  | nil => rfl
  | cons d rest ih =>
    simp only [List.map_cons, List.nodup_cons] at h
    by_cases hd : (d.id == i) = true
    · have hdi : d.id = i := beq_iff_eq.mp hd
      have h1 : removeFirstById (d :: rest) i = rest := by simp [removeFirstById, hd]
      have h2 : List.filter (fun a => !(a.id == i)) (d :: rest) =
          List.filter (fun a => !(a.id == i)) rest := by
        rw [List.filter_cons, hd]
        simp
      have h3 : List.filter (fun a => !(a.id == i)) rest = rest := by
        apply List.filter_eq_self.mpr
        intro a ha
        have : a.id ≠ i := fun hai =>
          h.1 (by rw [hdi, ← hai]; exact List.mem_map_of_mem Document.id ha)
        simpa using this
      rw [h1, h2, h3]
    · rw [show removeFirstById (d :: rest) i = d :: removeFirstById rest i from by
        simp [removeFirstById, hd]]
      rw [ih h.2, List.filter_cons]
      simp [hd]

/-- Splicing out a batch of collected records by id equals filtering out
all their ids, when the working copy has pairwise-distinct ids. -/
theorem foldl_removeById_eq_filter (R : List Document) :
    ∀ docs : List Document, (docs.map Document.id).Nodup →
      R.foldl (fun acc d => removeFirstById acc d.id) docs =
        docs.filter (fun d => !(R.any (fun r => d.id == r.id))) := by
  induction R with
  | nil => intro docs _; simp
  | cons r R ih =>
    intro docs h
    rw [List.foldl_cons, removeFirstById_eq_filter docs r.id h,
      ih _ (List.Nodup.sublist ((List.filter_sublist docs).map Document.id) h),
      List.filter_filter]
    apply List.filter_congr
    intro d _
    rw [List.any_cons, Bool.not_or, Bool.and_comm]

/-! ## Cleanup machinery: the stable descending sort -/

/-- Inserting into the sorted working list permutes consing. -/
theorem insertByDate_perm (d : Document) (l : List Document) :
    List.Perm (insertByDate d l) (d :: l) := by
  induction l with
  | nil => exact List.Perm.refl _
  | cons x xs ih =>
    simp only [insertByDate]
    by_cases hc : x.uploadedAt < d.uploadedAt
    · rw [if_pos hc]
    · rw [if_neg hc]
      exact (ih.cons x).trans (List.Perm.swap d x xs)

/-- The insertion fold permutes appending. -/
theorem foldl_insertByDate_perm (l : List Document) :
    ∀ acc, List.Perm (l.foldl (fun acc d => insertByDate d acc) acc) (l ++ acc) := by
  induction l with
  | nil => intro acc; simp
  | cons d l ih =>
    intro acc
    rw [List.foldl_cons]
    refine (ih (insertByDate d acc)).trans ?_
    refine (List.Perm.append_left l (insertByDate_perm d acc)).trans ?_
    exact List.perm_middle

/-- `sortByDateDesc` permutes its input. -/
theorem sortByDateDesc_perm (l : List Document) : List.Perm (sortByDateDesc l) l := by
  simpa [sortByDateDesc] using foldl_insertByDate_perm l []

/-- Insertion preserves the sorted-by-descending-`uploadedAt` invariant. -/
theorem insertByDate_pairwise {d : Document} {l : List Document}
    (h : l.Pairwise (fun a b => b.uploadedAt ≤ a.uploadedAt)) :
    (insertByDate d l).Pairwise (fun a b => b.uploadedAt ≤ a.uploadedAt) := by
  induction l with
  | nil => simp [insertByDate]
  | cons x xs ih =>
    rw [List.pairwise_cons] at h
    obtain ⟨hx, hxs⟩ := h
    simp only [insertByDate]
    by_cases hc : x.uploadedAt < d.uploadedAt
    · rw [if_pos hc]
      refine List.Pairwise.cons ?_ (List.Pairwise.cons hx hxs)
      intro y hy
      rcases List.mem_cons.mp hy with rfl | hy
      · exact Nat.le_of_lt hc
      · exact Nat.le_trans (hx y hy) (Nat.le_of_lt hc)
    · rw [if_neg hc]
      refine List.Pairwise.cons ?_ (ih hxs)
      intro y hy
      have hmem : y = d ∨ y ∈ xs := by
        simpa using (insertByDate_perm d xs).mem_iff.mp hy
      rcases hmem with rfl | hyy
      · omega
      · exact hx y hyy

/-- `sortByDateDesc` sorts by descending `uploadedAt`. -/
theorem sortByDateDesc_pairwise (l : List Document) :
    (sortByDateDesc l).Pairwise (fun a b => b.uploadedAt ≤ a.uploadedAt) := by
  suffices h : ∀ acc, acc.Pairwise (fun a b => b.uploadedAt ≤ a.uploadedAt) →
      (l.foldl (fun acc d => insertByDate d acc) acc).Pairwise
        (fun a b => b.uploadedAt ≤ a.uploadedAt) by
    exact h [] (by simp)
  induction l with
  | nil => intro acc hacc; simpa using hacc
  | cons d l ih =>
    intro acc hacc
    rw [List.foldl_cons]
    exact ih _ (insertByDate_pairwise hacc)

/-! ## Cleanup machinery: the duplicates map -/

/-- `getGroup` over a cons cell. -/
theorem getGroup_cons (k₀ : String) (ds : List Document)
    (gs : List (String × List Document)) (k : String) :
    getGroup ((k₀, ds) :: gs) k = if (k₀ == k) = true then ds else getGroup gs k := by
  by_cases h : (k₀ == k) = true
  · simp [getGroup, List.find?, h]
  · simp only [Bool.not_eq_true] at h
    simp [getGroup, List.find?, h]

/-- Effect of one map insertion on a group. -/
theorem getGroup_addToGroups (gs : List (String × List Document)) (k' : String)
    (d : Document) (k : String) :
    getGroup (addToGroups gs k' d) k =
      if (k' == k) = true then getGroup gs k ++ [d] else getGroup gs k := by
  induction gs with
  | nil =>
    by_cases h : (k' == k) = true
    · simp [addToGroups, getGroup, List.find?, h]
    · simp only [Bool.not_eq_true] at h
      simp [addToGroups, getGroup, List.find?, h]
  | cons g gs ih =>
    obtain ⟨k₀, ds⟩ := g
    by_cases h0 : (k₀ == k') = true
    · have hkk : k₀ = k' := beq_iff_eq.mp h0
      rw [show addToGroups ((k₀, ds) :: gs) k' d = (k₀, ds ++ [d]) :: gs from by
        simp [addToGroups, h0]]
      rw [getGroup_cons, getGroup_cons, hkk]
      by_cases h : (k' == k) = true
      · rw [if_pos h, if_pos h, if_pos h]
      · rw [if_neg h, if_neg h, if_neg h]
    · rw [show addToGroups ((k₀, ds) :: gs) k' d = (k₀, ds) :: addToGroups gs k' d from by
        simp [addToGroups, h0]]
      rw [getGroup_cons, getGroup_cons, ih]
      by_cases hk0 : (k₀ == k) = true
      · have hne : (k' == k) = false := by
          apply beq_eq_false_iff_ne.mpr
          intro hk'
          exact absurd (beq_iff_eq.mpr ((beq_iff_eq.mp hk0).trans hk'.symm)) (by simp [h0])
        simp [hk0, hne]
      · simp [hk0]

/-- Keys of the map after an insertion. -/
theorem mem_keys_addToGroups {gs : List (String × List Document)} {k' : String}
    {d : Document} {x : String} (hx : x ∈ (addToGroups gs k' d).map Prod.fst) :
    x ∈ gs.map Prod.fst ∨ x = k' := by
  induction gs with
  | nil => simp [addToGroups] at hx; exact Or.inr hx
  | cons g gs ih =>
    obtain ⟨k₀, ds⟩ := g
    by_cases h0 : (k₀ == k') = true
    · rw [show addToGroups ((k₀, ds) :: gs) k' d = (k₀, ds ++ [d]) :: gs from by
        simp [addToGroups, h0]] at hx
      simp only [List.map_cons] at hx ⊢
      exact Or.inl hx
    · rw [show addToGroups ((k₀, ds) :: gs) k' d = (k₀, ds) :: addToGroups gs k' d from by
        simp [addToGroups, h0]] at hx
      simp only [List.map_cons, List.mem_cons] at hx ⊢
      rcases hx with rfl | hx
      · exact Or.inl (Or.inl rfl)
      · rcases ih hx with h | h
        · exact Or.inl (Or.inr h)
        · exact Or.inr h

/-- Insertion preserves distinctness of the map keys. -/
theorem keys_nodup_addToGroups {gs : List (String × List Document)} {k' : String}
    {d : Document} (h : (gs.map Prod.fst).Nodup) :
    ((addToGroups gs k' d).map Prod.fst).Nodup := by
  induction gs with
  | nil => simp [addToGroups]
  | cons g gs ih =>
    obtain ⟨k₀, ds⟩ := g
    simp only [List.map_cons, List.nodup_cons] at h
    by_cases h0 : (k₀ == k') = true
    · rw [show addToGroups ((k₀, ds) :: gs) k' d = (k₀, ds ++ [d]) :: gs from by
        simp [addToGroups, h0]]
      simp only [List.map_cons, List.nodup_cons]
      exact ⟨h.1, h.2⟩
    · rw [show addToGroups ((k₀, ds) :: gs) k' d = (k₀, ds) :: addToGroups gs k' d from by
        simp [addToGroups, h0]]
      simp only [List.map_cons, List.nodup_cons]
      refine ⟨?_, ih h.2⟩
      intro hmem
      rcases mem_keys_addToGroups hmem with hm | hm
      · exact h.1 hm
      · exact absurd (beq_iff_eq.mpr hm) (by simp [h0])

/-- The keys of the duplicates map are pairwise distinct. -/
theorem groupByKey_keys_nodup (docs : List Document) :
    ((groupByKey docs).map Prod.fst).Nodup := by
  suffices h : ∀ gs : List (String × List Document), (gs.map Prod.fst).Nodup →
      ((docs.foldl (fun gs d => addToGroups gs (dupKey d) d) gs).map Prod.fst).Nodup by
    exact h [] (by simp)
  induction docs with
  | nil => intro gs hgs; simpa using hgs
  | cons d docs ih =>
    intro gs hgs
    rw [List.foldl_cons]
    exact ih _ (keys_nodup_addToGroups hgs)

/-- The group of `k` accumulated by the fold. -/
theorem getGroup_foldl (docs : List Document) :
    ∀ (gs : List (String × List Document)) (k : String),
      getGroup (docs.foldl (fun gs d => addToGroups gs (dupKey d) d) gs) k =
        getGroup gs k ++ docs.filter (fun d => dupKey d == k) := by
  induction docs with
  | nil => intro gs k; simp
  | cons d docs ih =>
    intro gs k
    rw [List.foldl_cons, ih, getGroup_addToGroups, List.filter_cons]
    by_cases h : (dupKey d == k) = true
    · rw [if_pos h, if_pos h]
      simp
    · rw [if_neg h, if_neg h]

/-- Each group of the duplicates map is exactly the records of its key, in
original order. -/
theorem getGroup_groupByKey (docs : List Document) (k : String) :
    getGroup (groupByKey docs) k = docs.filter (fun d => dupKey d == k) := by
  have h := getGroup_foldl docs [] k
  unfold groupByKey
  rw [h]
  simp [getGroup]

/-- With distinct keys, `getGroup` recovers any member of the map. -/
theorem getGroup_of_mem {gs : List (String × List Document)}
    (h : (gs.map Prod.fst).Nodup) {k : String} {g : List Document}
    (hm : (k, g) ∈ gs) : getGroup gs k = g := by
  induction gs with
  | nil => simp at hm
  | cons g₀ gs ih =>
    obtain ⟨k₀, ds⟩ := g₀
    simp only [List.map_cons, List.nodup_cons] at h
    rcases List.mem_cons.mp hm with heq | hm'
    · obtain ⟨h1, h2⟩ := Prod.mk.injEq .. ▸ heq
      rw [getGroup_cons, if_pos (beq_iff_eq.mpr h1.symm)]
      exact h2.symm
    · have hk : k ∈ gs.map Prod.fst := by
        simpa using List.mem_map_of_mem Prod.fst hm'
      have hne : (k₀ == k) = false := by
        apply beq_eq_false_iff_ne.mpr
        intro hk0
        exact h.1 (hk0 ▸ hk)
      rw [getGroup_cons, if_neg (by simp [hne])]
      exact ih h.2 hm'

/-- Every member of the map is a `(key, records of that key)` pair. -/
theorem snd_eq_filter_of_mem_groupByKey {docs : List Document}
    {e : String × List Document} (hm : e ∈ groupByKey docs) :
    e.2 = docs.filter (fun d => dupKey d == e.1) := by
  have h := getGroup_of_mem (groupByKey_keys_nodup docs) (k := e.1) (g := e.2)
    (by simpa using hm)
  rw [← h, getGroup_groupByKey]

/-- Every record's key owns an entry of the map holding its full group. -/
theorem group_entry_of_mem {docs : List Document} {d : Document} (hd : d ∈ docs) :
    (dupKey d, docs.filter (fun x => dupKey x == dupKey d)) ∈ groupByKey docs := by
  have hg := getGroup_groupByKey docs (dupKey d)
  unfold getGroup at hg
  cases hfind : (groupByKey docs).find? (fun g => g.1 == dupKey d) with
  | none =>
    rw [hfind] at hg
    exfalso
    have hdm : d ∈ docs.filter (fun x => dupKey x == dupKey d) :=
      List.mem_filter.mpr ⟨hd, by simp⟩
    have hg2 : ([] : List Document) = docs.filter (fun x => dupKey x == dupKey d) := hg
    rw [← hg2] at hdm
    simp at hdm
  | some e =>
    rw [hfind] at hg
    have hg2 : e.2 = docs.filter (fun x => dupKey x == dupKey d) := hg
    have he1 : e.1 = dupKey d := by
      have hp := List.find?_some hfind
      simpa using hp
    have hmem := List.mem_of_find?_eq_some hfind
    rw [← hg2, ← he1]
    simpa using hmem

/-! ## Cleanup machinery: the removal batch -/

/-- Two distinct members force length at least two. -/
theorem one_lt_length_of_two_mem {α : Type} {a b : α} {l : List α}
    (ha : a ∈ l) (hb : b ∈ l) (hne : a ≠ b) : 1 < l.length := by
  cases l with
  | nil => simp at ha
  | cons x xs =>
    cases xs with
    | nil =>
      simp at ha hb
      exact absurd (ha.trans hb.symm) hne
    | cons y ys =>
      simp only [List.length_cons]
      omega

/-- Membership in the collected `toRemove` batch. -/
theorem mem_dupRemovals_iff {gs : List (String × List Document)} {x : Document} :
    x ∈ dupRemovals gs ↔
      ∃ e ∈ gs, 1 < e.2.length ∧ x ∈ (sortByDateDesc e.2).drop 1 := by
  unfold dupRemovals
  simp only [List.mem_flatten, List.mem_map]
  constructor
  · rintro ⟨l, ⟨e, he, rfl⟩, hx⟩
    by_cases h : 1 < e.2.length
    · rw [if_pos h] at hx
      exact ⟨e, he, h, hx⟩
    · rw [if_neg h] at hx
      simp at hx
  · rintro ⟨e, he, h, hx⟩
    refine ⟨(sortByDateDesc e.2).drop 1, ⟨e, he, ?_⟩, hx⟩
    rw [if_pos h]

/-- With distinct ids, equal ids identify records. -/
theorem id_inj {docs : List Document} (hid : (docs.map Document.id).Nodup)
    {a b : Document} (ha : a ∈ docs) (hb : b ∈ docs) (h : a.id = b.id) : a = b :=
  List.inj_on_of_nodup_map hid ha hb h

/-- A record of the collection is in the removal batch by id exactly when
it is not a most recent record of its `(name-size)` key group. -/
theorem mem_removals_iff_not_latest {docs : List Document}
    (hid : (docs.map Document.id).Nodup)
    (ht : ∀ a ∈ docs, ∀ b ∈ docs,
      dupKey a = dupKey b → a.uploadedAt = b.uploadedAt → a = b)
    {d : Document} (hd : d ∈ docs) :
    ((dupRemovals (groupByKey docs)).any (fun r => d.id == r.id)) = true ↔
      ¬ (∀ e ∈ docs, dupKey e = dupKey d → e.uploadedAt ≤ d.uploadedAt) := by
  have hnd : docs.Nodup := hid.of_map
  have hdg : d ∈ docs.filter (fun x => dupKey x == dupKey d) :=
    List.mem_filter.mpr ⟨hd, by simp⟩
  constructor
  · intro hany
    obtain ⟨r, hrR, hdr⟩ := List.any_eq_true.mp hany
    obtain ⟨e, he, hlen, hxr⟩ := mem_dupRemovals_iff.mp hrR
    have he2 := snd_eq_filter_of_mem_groupByKey he
    have hr2 : r ∈ sortByDateDesc e.2 := List.mem_of_mem_drop hxr
    have hre : r ∈ e.2 := (sortByDateDesc_perm e.2).mem_iff.mp hr2
    have hrdocs : r ∈ docs := (List.mem_filter.mp (he2 ▸ hre)).1
    have hrkey : dupKey r = e.1 := by
      have := (List.mem_filter.mp (he2 ▸ hre)).2
      simpa using this
    have hdreq : d = r := id_inj hid hd hrdocs (beq_iff_eq.mp hdr)
    subst hdreq
    have hkey : e.1 = dupKey d := hrkey.symm
    have hg : e.2 = docs.filter (fun x => dupKey x == dupKey d) := by
      rw [he2, hkey]
    intro hall
    -- d sits in the dropped part of its sorted group; the head is newer.
    have hgnodup : e.2.Nodup := hg ▸ hnd.filter _
    have hsnodup : (sortByDateDesc e.2).Nodup :=
      ((sortByDateDesc_perm e.2).nodup_iff).mpr hgnodup
    have hpair := sortByDateDesc_pairwise e.2
    cases hsort : sortByDateDesc e.2 with
    | nil => rw [hsort] at hxr; simp at hxr
    | cons head tail =>
      rw [hsort] at hxr hpair hsnodup
      simp only [List.drop_succ_cons, List.drop_zero] at hxr
      have hhead : head ∈ e.2 := (sortByDateDesc_perm e.2).mem_iff.mp (by rw [hsort]; simp)
      have hheadd : head ∈ docs := (List.mem_filter.mp (hg ▸ hhead)).1
      have hheadk : dupKey head = dupKey d := by
        have := (List.mem_filter.mp (hg ▸ hhead)).2
        simpa using this
      have hle : d.uploadedAt ≤ head.uploadedAt :=
        (List.pairwise_cons.mp hpair).1 d hxr
      have hge : head.uploadedAt ≤ d.uploadedAt := hall head hheadd hheadk
      have : head = d := ht head hheadd d hd hheadk (Nat.le_antisymm hge hle)
      subst this
      exact (List.nodup_cons.mp hsnodup).1 hxr
  · intro hnall
    push_neg at hnall
    obtain ⟨e', he'd, he'k, he't⟩ := hnall
    have hde' : d ≠ e' := by
      intro h
      rw [← h] at he't
      omega
    have he'g : e' ∈ docs.filter (fun x => dupKey x == dupKey d) :=
      List.mem_filter.mpr ⟨he'd, by simp [he'k]⟩
    have hlen : 1 < (docs.filter (fun x => dupKey x == dupKey d)).length :=
      one_lt_length_of_two_mem hdg he'g hde'
    have hent := group_entry_of_mem hd
    have hpair := sortByDateDesc_pairwise (docs.filter (fun x => dupKey x == dupKey d))
    have hperm := sortByDateDesc_perm (docs.filter (fun x => dupKey x == dupKey d))
    cases hsort : sortByDateDesc (docs.filter (fun x => dupKey x == dupKey d)) with
    | nil =>
      rw [hsort] at hperm
      rw [← hperm.length_eq] at hlen
      simp at hlen
    | cons head tail =>
      rw [hsort] at hperm hpair
      have hdtail : d ∈ tail := by
        have hds : d ∈ head :: tail := hperm.mem_iff.mpr hdg
        rcases List.mem_cons.mp hds with heq | h
        · exfalso
          have he's : e' ∈ head :: tail := hperm.mem_iff.mpr he'g
          rcases List.mem_cons.mp he's with heq' | h'
          · rw [heq', ← heq] at he't
            omega
          · have hp := (List.pairwise_cons.mp hpair).1 e' h'
            rw [← heq] at hp
            omega
        · exact h
      apply List.any_eq_true.mpr
      refine ⟨d, ?_, by simp⟩
      apply mem_dupRemovals_iff.mpr
      refine ⟨_, hent, hlen, ?_⟩
      rw [hsort]
      simpa using hdtail

/-- The spec-side keep predicate in propositional form. -/
theorem specKeepsLatest_eq_true_iff {docs : List Document} {d : Document} :
    specKeepsLatest docs d = true ↔
      ∀ e ∈ docs, dupKey e = dupKey d → e.uploadedAt ≤ d.uploadedAt := by
  unfold specKeepsLatest
  rw [List.all_eq_true]
  constructor
  · intro h e he hk
    have := h e he
    simp [hk] at this
    exact this
  · intro h e he
    by_cases hk : dupKey e = dupKey d
    · simp [hk, h e he hk]
    · simp [hk]

/-! ## Cleanup machinery: pass characterizations -/

/-- The duplicate pass in filter form (no hypotheses on timestamps). -/
theorem dupPass_eq_filter (docs : List Document)
    (hid : (docs.map Document.id).Nodup) :
    dupPass docs = docs.filter
      (fun d => !((dupRemovals (groupByKey docs)).any (fun r => d.id == r.id))) := by
  unfold dupPass
  exact foldl_removeById_eq_filter _ docs hid

/-- The duplicate pass keeps exactly the records that are most recently
uploaded within their `(name-size)` key group. -/
theorem dupPass_eq_filter_latest (docs : List Document)
    (hid : (docs.map Document.id).Nodup)
    (ht : ∀ a ∈ docs, ∀ b ∈ docs,
      dupKey a = dupKey b → a.uploadedAt = b.uploadedAt → a = b) :
    dupPass docs = docs.filter (specKeepsLatest docs) := by
  rw [dupPass_eq_filter docs hid]
  apply List.filter_congr
  intro d hd
  have hiff := mem_removals_iff_not_latest hid ht hd
  cases hany : (dupRemovals (groupByKey docs)).any (fun r => d.id == r.id) with
  | true =>
    have hnot := hiff.mp hany
    have : specKeepsLatest docs d = false := by
      rw [← Bool.not_eq_true]
      exact fun habs => hnot (specKeepsLatest_eq_true_iff.mp habs)
    simp [this]
  | false =>
    have hall : ∀ e ∈ docs, dupKey e = dupKey d → e.uploadedAt ≤ d.uploadedAt := by
      by_contra habs
      exact absurd (hiff.mpr habs) (by simp [hany])
    have : specKeepsLatest docs d = true := specKeepsLatest_eq_true_iff.mpr hall
    simp [this]

/-- The stale-error pass is a plain filter when ids are distinct. -/
theorem errorPass_eq_filter (docs : List Document)
    (hid : (docs.map Document.id).Nodup) (cutoff : Nat) :
    errorPass cutoff docs = docs.filter (fun d => !(errStale cutoff d)) := by
  unfold errorPass
  rw [foldl_removeById_eq_filter _ docs hid]
  apply List.filter_congr
  intro d hd
  cases hs : errStale cutoff d with
  | true =>
    have : (docs.filter (errStale cutoff)).any (fun r => d.id == r.id) = true :=
      List.any_eq_true.mpr ⟨d, List.mem_filter.mpr ⟨hd, hs⟩, by simp⟩
    rw [this]
  | false =>
    have : (docs.filter (errStale cutoff)).any (fun r => d.id == r.id) = false := by
      apply List.any_eq_false.mpr
      intro r hr
      obtain ⟨hrd, hrs⟩ := List.mem_filter.mp hr
      intro hdr
      have heq : d = r := id_inj hid hd hrd (beq_iff_eq.mp hdr)
      rw [← heq] at hrs
      rw [hrs] at hs
      simp at hs
    rw [this]

/-! ## Cleanup machinery: after the duplicate pass, keys are unique -/

/-- Two survivors of the duplicate pass never share a key. -/
theorem mem_dupPass_unique_key (docs : List Document)
    (hid : (docs.map Document.id).Nodup) {a b : Document}
    (ha : a ∈ dupPass docs) (hb : b ∈ dupPass docs)
    (hk : dupKey a = dupKey b) : a = b := by
  rw [dupPass_eq_filter docs hid] at ha hb
  obtain ⟨had, hpa⟩ := List.mem_filter.mp ha
  obtain ⟨hbd, hpb⟩ := List.mem_filter.mp hb
  by_contra hne
  have hag : a ∈ docs.filter (fun x => dupKey x == dupKey a) :=
    List.mem_filter.mpr ⟨had, by simp⟩
  have hbg : b ∈ docs.filter (fun x => dupKey x == dupKey a) :=
    List.mem_filter.mpr ⟨hbd, by simp [hk.symm]⟩
  have hlen : 1 < (docs.filter (fun x => dupKey x == dupKey a)).length :=
    one_lt_length_of_two_mem hag hbg hne
  have hent := group_entry_of_mem had
  have hperm := sortByDateDesc_perm (docs.filter (fun x => dupKey x == dupKey a))
  cases hsort : sortByDateDesc (docs.filter (fun x => dupKey x == dupKey a)) with
  | nil =>
    rw [hsort] at hperm
    rw [← hperm.length_eq] at hlen
    simp at hlen
  | cons head tail =>
    rw [hsort] at hperm
    have hkept : ∀ x, x ∈ docs.filter (fun y => dupKey y == dupKey a) →
        (!((dupRemovals (groupByKey docs)).any (fun r => x.id == r.id))) = true →
        x = head := by
      intro x hxg hpx
      have hxs : x ∈ head :: tail := hperm.mem_iff.mpr hxg
      rcases List.mem_cons.mp hxs with heq | hxt
      · exact heq
      · exfalso
        have hxR : x ∈ dupRemovals (groupByKey docs) := by
          apply mem_dupRemovals_iff.mpr
          refine ⟨_, hent, hlen, ?_⟩
          rw [hsort]
          simpa using hxt
        have : (dupRemovals (groupByKey docs)).any (fun r => x.id == r.id) = true :=
          List.any_eq_true.mpr ⟨x, hxR, by simp⟩
        rw [this] at hpx
        simp at hpx
    have hah := hkept a hag hpa
    have hbh := hkept b hbg hpb
    exact hne (hah.trans hbh.symm)

/-- With pairwise-distinct keys, each key group has at most one record. -/
theorem length_filter_key_le_one {l : List Document}
    (h : (l.map dupKey).Nodup) (k : String) :
    (l.filter (fun x => dupKey x == k)).length ≤ 1 := by
  induction l with
  | nil => simp
  | cons d t ih =>
    simp only [List.map_cons, List.nodup_cons] at h
    rw [List.filter_cons]
    by_cases hd : (dupKey d == k) = true
    · rw [if_pos hd]
      have hnil : t.filter (fun x => dupKey x == k) = [] := by
        apply List.filter_eq_nil_iff.mpr
        intro a ha habs
        apply h.1
        have : dupKey d = dupKey a := (beq_iff_eq.mp hd).trans (beq_iff_eq.mp habs).symm
        rw [this]
        exact List.mem_map_of_mem dupKey ha
      rw [hnil]
      simp
    · rw [if_neg hd]
      exact ih h.2

/-- With pairwise-distinct keys, nothing is collected for removal. -/
theorem dupRemovals_groupByKey_eq_nil {l : List Document}
    (h : (l.map dupKey).Nodup) : dupRemovals (groupByKey l) = [] := by
  apply List.eq_nil_iff_forall_not_mem.mpr
  intro x hx
  obtain ⟨e, he, hlen, _⟩ := mem_dupRemovals_iff.mp hx
  have he2 := snd_eq_filter_of_mem_groupByKey he
  have hle := length_filter_key_le_one h e.1
  rw [← he2] at hle
  omega

/-- With pairwise-distinct keys, the duplicate pass is the identity. -/
theorem dupPass_eq_self_of_nodup_keys {l : List Document}
    (h : (l.map dupKey).Nodup) : dupPass l = l := by
  unfold dupPass
  rw [dupRemovals_groupByKey_eq_nil h]
  rfl

/-- The duplicate pass leaves a sublist of the input. -/
theorem dupPass_sublist (docs : List Document)
    (hid : (docs.map Document.id).Nodup) : (dupPass docs).Sublist docs := by
  rw [dupPass_eq_filter docs hid]
  exact List.filter_sublist docs

/-- The survivors of the duplicate pass have pairwise-distinct keys. -/
theorem dupPass_keys_nodup (docs : List Document)
    (hid : (docs.map Document.id).Nodup) : ((dupPass docs).map dupKey).Nodup := by
  have hnd : (dupPass docs).Nodup := by
    rw [dupPass_eq_filter docs hid]
    exact (hid.of_map).filter _
  exact List.Nodup.map_on
    (fun a ha b hb hab => mem_dupPass_unique_key docs hid ha hb hab) hnd

/-! ## Decimal rendering: digits only, and injectivity -/

/-- All characters produced by the digit accumulator satisfy any property
that all decimal digit characters satisfy. -/
theorem natDigitsCore_all {P : Char → Prop}
    (hdig : ∀ m, m < 10 → P (Nat.digitChar m)) :
    ∀ fuel n ds, (∀ c ∈ ds, P c) → ∀ c ∈ natDigitsCore fuel n ds, P c := by
  intro fuel
  induction fuel with
  | zero => intro n ds hds c hc; exact hds c hc
  | succ fuel ih =>
    intro n ds hds c hc
    by_cases h : n / 10 = 0
    · simp only [natDigitsCore, if_pos h] at hc
      rcases List.mem_cons.mp hc with rfl | hc'
      · exact hdig _ (Nat.mod_lt n (by omega))
      · exact hds c hc'
    · simp only [natDigitsCore, if_neg h] at hc
      refine ih (n / 10) (Nat.digitChar (n % 10) :: ds) ?_ c hc
      intro c' hc'
      rcases List.mem_cons.mp hc' with rfl | hc''
      · exact hdig _ (Nat.mod_lt n (by omega))
      · exact hds c' hc''

/-- Digit characters are never the dash separator. -/
theorem digitChar_ne_dash (m : Nat) (h : m < 10) : Nat.digitChar m ≠ '-' := by
  interval_cases m <;> decide

/-- The decimal rendering of a number contains no dash. -/
theorem dash_not_mem_natDigits (n : Nat) : '-' ∉ natDigits n := by
  intro h
  exact natDigitsCore_all (P := fun c => c ≠ '-') digitChar_ne_dash
    (n + 1) n [] (by simp) '-' h rfl

/-- The fuelled accumulator agrees with the recursive companion whenever
the fuel bounds the number. -/
theorem natDigitsCore_eq_rec :
    ∀ fuel n ds, n < 10 ^ (fuel + 1) →
      natDigitsCore (fuel + 1) n ds = natDigitsRec n ++ ds := by
  intro fuel
  induction fuel with
  | zero =>
    intro n ds h
    have h10 : n < 10 := by simpa using h
    have hdiv : n / 10 = 0 := Nat.div_eq_of_lt h10
    simp only [natDigitsCore, if_pos hdiv]
    rw [natDigitsRec, if_pos h10, Nat.mod_eq_of_lt h10]
    simp
  | succ fuel ih =>
    intro n ds h
    by_cases hdiv : n / 10 = 0
    · have h10 : n < 10 := by
        rcases Nat.lt_or_ge n 10 with h' | h'
        · exact h'
        · exfalso
          have h1 : 1 ≤ n / 10 := (Nat.le_div_iff_mul_le (by omega)).mpr (by omega)
          omega
      simp only [natDigitsCore, if_pos hdiv]
      rw [natDigitsRec, if_pos h10, Nat.mod_eq_of_lt h10]
      simp
    · have hlt : n / 10 < 10 ^ (fuel + 1) := by
        rw [Nat.div_lt_iff_lt_mul (by omega)]
        calc n < 10 ^ (fuel + 1 + 1) := h
          _ = 10 ^ (fuel + 1) * 10 := by ring
      rw [natDigitsCore, if_neg hdiv, ih (n / 10) (Nat.digitChar (n % 10) :: ds) hlt]
      have h10 : ¬ n < 10 := fun habs => hdiv (Nat.div_eq_of_lt habs)
      conv_rhs => rw [natDigitsRec]
      rw [if_neg h10]
      simp

/-- `natDigits` equals its recursive companion. -/
theorem natDigits_eq_rec (n : Nat) : natDigits n = natDigitsRec n := by
  unfold natDigits
  have h : n < 10 ^ (n + 1) :=
    Nat.lt_of_lt_of_le (Nat.lt_pow_self (by omega) n)
      (Nat.pow_le_pow_right (by omega) (by omega))
  rw [natDigitsCore_eq_rec n n [] h]
  simp

/-- Peeling the least significant digit off `ofDigits`. -/
theorem ofDigits_append_singleton (l : List Char) (c : Char) :
    ofDigits (l ++ [c]) = 10 * ofDigits l + (c.toNat - 48) := by
  unfold ofDigits
  rw [List.foldl_append]
  rfl

/-- Value of a digit character. -/
theorem digit_val (m : Nat) (h : m < 10) : (Nat.digitChar m).toNat - 48 = m := by
  interval_cases m <;> decide

/-- `ofDigits` inverts the recursive rendering. -/
theorem ofDigits_natDigitsRec (n : Nat) : ofDigits (natDigitsRec n) = n := by
  induction n using Nat.strong_induction_on with
  | _ n ih =>
    by_cases h : n < 10
    · rw [natDigitsRec, if_pos h]
      show 10 * 0 + ((Nat.digitChar n).toNat - 48) = n
      simpa using digit_val n h
    · rw [natDigitsRec, if_neg h, ofDigits_append_singleton,
        ih (n / 10) (Nat.div_lt_self (by omega) (by omega)),
        digit_val (n % 10) (Nat.mod_lt n (by omega))]
      omega

/-- Decimal rendering is injective. -/
theorem natDigits_inj {m n : Nat} (h : natDigits m = natDigits n) : m = n := by
  have h2 := congrArg ofDigits h
  rwa [natDigits_eq_rec, natDigits_eq_rec, ofDigits_natDigitsRec,
    ofDigits_natDigitsRec] at h2

/-- Splitting at a separator that occurs in neither right part. -/
theorem append_sep_inj {r1 r2 : List Char} (h1 : '-' ∉ r1) (h2 : '-' ∉ r2) :
    ∀ {l1 l2 : List Char}, l1 ++ '-' :: r1 = l2 ++ '-' :: r2 → l1 = l2 ∧ r1 = r2 := by
  intro l1
  induction l1 with
  | nil =>
    intro l2 h
    cases l2 with
    | nil => simpa using h
    | cons x l2 =>
      simp only [List.nil_append, List.cons_append, List.cons.injEq] at h
      exfalso
      apply h1
      rw [h.2]
      exact List.mem_append_right _ (List.mem_cons_self _ _)
  | cons x l1 ih =>
    intro l2 h
    cases l2 with
    | nil =>
      simp only [List.nil_append, List.cons_append, List.cons.injEq] at h
      exfalso
      apply h2
      rw [← h.2]
      exact List.mem_append_right _ (List.mem_cons_self _ _)
    | cons y l2 =>
      simp only [List.cons_append, List.cons.injEq] at h
      obtain ⟨hxy, hrest⟩ := h
      obtain ⟨hl, hr⟩ := ih hrest
      exact ⟨by rw [hxy, hl], hr⟩

/-- The string key `` `${name}-${size}` `` cannot merge two records with
distinct `(name, size)` pairs: byte sizes render without a dash, so the
key determines both components. -/
theorem dupKey_eq_iff (a b : Document) :
    dupKey a = dupKey b ↔ (a.name = b.name ∧ a.size = b.size) := by
  constructor
  · intro h
    have hd := congrArg String.data h
    have ha : (dupKey a).data = a.name.data ++ '-' :: natDigits a.size := by
      unfold dupKey natToString
      rw [String.data_append, String.data_append]
      simp
    have hb : (dupKey b).data = b.name.data ++ '-' :: natDigits b.size := by
      unfold dupKey natToString
      rw [String.data_append, String.data_append]
      simp
    rw [ha, hb] at hd
    obtain ⟨hname, hdig⟩ :=
      append_sep_inj (dash_not_mem_natDigits a.size) (dash_not_mem_natDigits b.size) hd
    exact ⟨congrArg String.mk hname, natDigits_inj hdig⟩
  · rintro ⟨h1, h2⟩
    unfold dupKey
    rw [h1, h2]

/-! ## Claim C3 -/

/-- Claim C3 counterexample: two records share `(name, size)` and differ in
`uploadedAt`, but the most recently uploaded one is a stale `error` record,
so the stale-error pass of `cleanupRedundantData` removes it as well and
the cleanup keeps neither — the most recent record does not remain. -/
theorem cleanup_latest_duplicate_dropped_cex :
    cexDocOld.name = cexDocNew.name ∧ cexDocOld.size = cexDocNew.size ∧
    cexDocOld.uploadedAt < cexDocNew.uploadedAt ∧
    cexDocNew.status = Status.error ∧
    cleanupRedundantData 100 [cexDocOld, cexDocNew] = [] := by
  decide

/-- Claim C3 (amended): the duplicate pass of `cleanupRedundantData`
retains exactly the records most recently uploaded within their
`(name,size)` group and removes the others, and the string key never
merges distinct `(name,size)` pairs; but the full cleanup additionally
drops retained records whose status is `error` with `uploadedAt` older
than the retention cutoff, so after the whole operation the most recent
duplicate remains only if it is not a stale error record. -/
theorem cleanup_duplicate_grouping_characterization
    (docs : List Document) (cutoff : Nat)
    (hid : (docs.map Document.id).Nodup)
    (ht : ∀ a ∈ docs, ∀ b ∈ docs,
      dupKey a = dupKey b → a.uploadedAt = b.uploadedAt → a = b) :
    dupPass docs = docs.filter (specKeepsLatest docs) ∧
    cleanupRedundantData cutoff docs =
      (docs.filter (specKeepsLatest docs)).filter (fun d => !(errStale cutoff d)) ∧
    (∀ a b : Document, dupKey a = dupKey b ↔ (a.name = b.name ∧ a.size = b.size)) := by
  have h1 := dupPass_eq_filter_latest docs hid ht
  refine ⟨h1, ?_, fun a b => dupKey_eq_iff a b⟩
  unfold cleanupRedundantData
  rw [h1, errorPass_eq_filter _
    (List.Nodup.sublist ((List.filter_sublist docs).map Document.id) hid) cutoff]

/-- Witness for C3's amended theorem on a concrete two-record collection. -/
theorem cleanup_duplicate_grouping_characterization_witness :
    dupPass [cexDocOld, cexDocNew] =
      [cexDocOld, cexDocNew].filter (specKeepsLatest [cexDocOld, cexDocNew]) ∧
    cleanupRedundantData 3 [cexDocOld, cexDocNew] =
      ([cexDocOld, cexDocNew].filter (specKeepsLatest [cexDocOld, cexDocNew])).filter
        (fun d => !(errStale 3 d)) ∧
    (dupKey cexDocOld = dupKey cexDocNew ↔
      (cexDocOld.name = cexDocNew.name ∧ cexDocOld.size = cexDocNew.size)) := by
  have h := cleanup_duplicate_grouping_characterization [cexDocOld, cexDocNew] 3
    (by decide) (by decide)
  exact ⟨h.1, h.2.1, h.2.2 cexDocOld cexDocNew⟩

/-! ## Claim C10 -/

/-- Claim C10: for a collection with pairwise-distinct ids (the store only
ever creates fresh ids) and any fixed cutoff time, applying
`cleanupRedundantData`'s list transformation twice gives the same
collection as applying it once. -/
theorem cleanup_idempotent (docs : List Document) (cutoff : Nat)
    (hid : (docs.map Document.id).Nodup) :
    cleanupRedundantData cutoff (cleanupRedundantData cutoff docs) =
      cleanupRedundantData cutoff docs := by
  have hsubF : (dupPass docs).Sublist docs := dupPass_sublist docs hid
  have hFid : ((dupPass docs).map Document.id).Nodup :=
    List.Nodup.sublist (hsubF.map Document.id) hid
  have hr : cleanupRedundantData cutoff docs =
      (dupPass docs).filter (fun d => !(errStale cutoff d)) := by
    unfold cleanupRedundantData
    exact errorPass_eq_filter _ hFid cutoff
  have hsubr : (cleanupRedundantData cutoff docs).Sublist (dupPass docs) := by
    rw [hr]
    exact List.filter_sublist _
  have hrid : ((cleanupRedundantData cutoff docs).map Document.id).Nodup :=
    List.Nodup.sublist (hsubr.map Document.id) hFid
  have hrkeys : ((cleanupRedundantData cutoff docs).map dupKey).Nodup :=
    List.Nodup.sublist (hsubr.map dupKey) (dupPass_keys_nodup docs hid)
  show errorPass cutoff (dupPass (cleanupRedundantData cutoff docs)) =
    cleanupRedundantData cutoff docs
  rw [dupPass_eq_self_of_nodup_keys hrkeys, errorPass_eq_filter _ hrid cutoff]
  rw [hr, List.filter_filter]
  apply List.filter_congr
  intro d _
  rw [Bool.and_self]

/-- Witness for C10 on a concrete collection that the cleanup changes. -/
theorem cleanup_idempotent_witness :
    cleanupRedundantData 100 (cleanupRedundantData 100 [cexDocOld, cexDocNew]) =
      cleanupRedundantData 100 [cexDocOld, cexDocNew] :=
  cleanup_idempotent [cexDocOld, cexDocNew] 100 (by decide)
